import Mathlib

/-!
# Verification of the ConsoleHistory navigator (src/src/console/history.ts)

This file embeds the ConsoleHistory class as a Lean state machine.  The
private fields of the class become the fields of the ConsoleHistory
structure; each method becomes a function on that structure.

Modelling conventions:
* The phosphor Vector of strings is a List String.
* A nullable field (the TS fields _history and _filtered are initialised
  to null, and _history is set to null on disposal) is an Option.
* A kernel is identified by a Nat; the field _kernel is an Option Nat.
* Methods that would throw a TypeError when they read a property of a
  null field return none (the Option result models the thrown error).
* The kernel setter issues an asynchronous history request; the model
  returns, next to the new state, the identity of the kernel the fetch
  was addressed to (none when the setter issues no fetch).  A fetch
  resolution is modelled by applying onHistory to whatever state the
  object has at resolution time, exactly as the then-callback does.
* JS array indexing a[i] (which yields undefined for i outside bounds,
  including negative i) is the function vecAt below.
* The JS test filterStr == str.slice(0, filterStr.length) is modelled
  as filterStr == str.take filterStr.length.
-/

/-- JS array indexing on a list: the element at integer index i, or
none when i is negative or at least the length (phosphor Vector.at
returns the underlying array element, undefined outside bounds). -/
def vecAt (l : List String) (i : Int) : Option String :=
  if i < 0 then none else l.get? i.toNat

/-- The state of a ConsoleHistory object: one field per private field
of the TS class. -/
structure ConsoleHistory where
  cursor : Int
  hasSession : Bool
  history : Option (List String)
  kernel : Option Nat
  placeholder : String
  filtered : Option (List String)
deriving DecidableEq

/-- The constructor (without the optional kernel): every field keeps its
initialiser except _history, which is set to a fresh empty Vector. -/
def mkConsoleHistory : ConsoleHistory :=
  { cursor := 0, hasSession := false, history := some [], kernel := none,
    placeholder := "", filtered := none }

/-- The isDisposed getter: the object is disposed iff _history is null. -/
def ConsoleHistory.isDisposed (s : ConsoleHistory) : Bool :=
  s.history.isNone

/-- The dispose method: a no-op when already disposed, otherwise sets
_history to null (clearSignalData touches no modelled state). -/
def ConsoleHistory.dispose (s : ConsoleHistory) : ConsoleHistory :=
  if s.isDisposed then s else { s with history := none }

/-- The kernel setter.  Returns the new state together with the kernel a
history fetch was issued to, if any: identical value is a no-op; a null
value replaces _history with a fresh empty Vector and issues no fetch; a
non-null value issues a fetch and touches no other field. -/
def ConsoleHistory.setKernel (s : ConsoleHistory) (newValue : Option Nat) :
    ConsoleHistory × Option Nat :=
  if newValue = s.kernel then (s, none)
  else
    let s1 := { s with kernel := newValue }
    match newValue with
    | none => ({ s1 with history := some [] }, none)
    | some k => (s1, some k)

/-- The setFilter method: stores in _filtered the entries of _history
whose prefix of the filter string's length equals the filter string.
Reading a null _history would throw, hence the none branch. -/
def ConsoleHistory.setFilter (s : ConsoleHistory) (filterStr : String) :
    Option ConsoleHistory :=
  match s.history with
  | none => none
  | some h =>
      some { s with
        filtered := some (h.filter (fun str => filterStr == str.take filterStr.length)) }

/-- The back method.  When no session is active it starts one (records
the placeholder, filters the history, puts the cursor past the end of
the filtered view); then it reads the filtered view at the decremented
cursor and clamps the cursor to a minimum of 0.  The read happens at the
decremented, unclamped cursor. -/
def ConsoleHistory.back (s : ConsoleHistory) (p : String) :
    Option (ConsoleHistory × Option String) :=
  let started : Option ConsoleHistory :=
    if s.hasSession then some s
    else
      match ConsoleHistory.setFilter { s with hasSession := true, placeholder := p } p with
      | none => none
      | some s1 =>
          match s1.filtered with
          | none => none
          | some f => some { s1 with cursor := (f.length : Int) }
  match started with
  | none => none
  | some s2 =>
      match s2.filtered with
      | none => none
      | some f =>
          let c := s2.cursor - 1
          some ({ s2 with cursor := max 0 c }, vecAt f c)

/-- The forward method: session start identical to back; then it reads
the filtered view at the incremented cursor and clamps the cursor to a
maximum of the filtered view's length. -/
def ConsoleHistory.forward (s : ConsoleHistory) (p : String) :
    Option (ConsoleHistory × Option String) :=
  let started : Option ConsoleHistory :=
    if s.hasSession then some s
    else
      match ConsoleHistory.setFilter { s with hasSession := true, placeholder := p } p with
      | none => none
      | some s1 =>
          match s1.filtered with
          | none => none
          | some f => some { s1 with cursor := (f.length : Int) }
  match started with
  | none => none
  | some s2 =>
      match s2.filtered with
      | none => none
      | some f =>
          let c := s2.cursor + 1
          some ({ s2 with cursor := min (f.length : Int) c }, vecAt f c)

/-- The reset method: cursor to the history's length, session flag off,
placeholder cleared.  Reading length of a null _history would throw. -/
def ConsoleHistory.reset (s : ConsoleHistory) : Option ConsoleHistory :=
  match s.history with
  | none => none
  | some h =>
      some { s with cursor := (h.length : Int), hasSession := false, placeholder := "" }

/-- The push method: appends the item when it is non-empty and differs
from the Vector's back (which is undefined, hence unequal to any string,
when the history is empty), then always resets.  Reading back of a null
_history would throw. -/
def ConsoleHistory.push (s : ConsoleHistory) (item : String) : Option ConsoleHistory :=
  match s.history with
  | none => none
  | some h =>
      let s1 := if item ≠ "" ∧ h.getLast? ≠ some item
                then { s with history := some (h ++ [item]) } else s
      ConsoleHistory.reset s1

/-- One iteration of the loop of onHistory: the accumulator holds the
Vector built so far and the last variable; a current text is appended
exactly when it differs from last, which is then updated. -/
def dedupStep (acc : List String × String) (current : String) : List String × String :=
  if current ≠ acc.2 then (acc.1 ++ [current], current) else acc

/-- The loop of onHistory: fold over the raw snapshot texts with the
last variable initialised to the empty string. -/
def dedup (entries : List String) : List String :=
  (entries.foldl dedupStep (([] : List String), "")).1

/-- The onHistory handler: replaces _history with the deduplicated
snapshot texts and sets the cursor to the new history's length.  It only
assigns fields, so it never throws, even on a disposed object.  Each raw
reply record is a triple whose text component is what the loop reads;
the model takes the list of texts directly. -/
def ConsoleHistory.onHistory (s : ConsoleHistory) (entries : List String) : ConsoleHistory :=
  let h := dedup entries
  { s with history := some h, cursor := (h.length : Int) }

/-- Modelled from the spec: the snapshot deduplication algorithm as the
spec words it, a structural recursion carrying the running last-kept
value, initialised to empty by the caller.  Used to compare the source's
fold (dedup) against the spec's description. -/
def dedupSpec (lastKept : String) : List String → List String
  | [] => []
  | e :: rest => if e ≠ lastKept then e :: dedupSpec e rest else dedupSpec lastKept rest

/-- An operation that modifies the Log: an explicit push, or the merge
of a bulk snapshot (given by its raw texts) through onHistory. -/
inductive HistOp
| hpush (item : String)
| hmerge (entries : List String)
deriving DecidableEq

/-- Run a sequence of Log operations; none models a thrown error along
the way. -/
def runHistOps (s : ConsoleHistory) : List HistOp → Option ConsoleHistory
  | [] => some s
  | HistOp.hpush item :: rest =>
      match s.push item with
      | none => none
      | some s1 => runHistOps s1 rest
  | HistOp.hmerge es :: rest => runHistOps (s.onHistory es) rest

/-- An operation performed during a navigation session: a back call, a
forward call (each with the placeholder argument it passes), or the
resolution of a bulk snapshot. -/
inductive SessOp
| sback (q : String)
| sforward (q : String)
| smerge (es : List String)
deriving DecidableEq

/-- Run a sequence of session operations, collecting the values the back
calls return, in order; none models a thrown error along the way. -/
def runSession (s : ConsoleHistory) : List SessOp → Option (ConsoleHistory × List (Option String))
  | [] => some (s, [])
  | SessOp.sback q :: rest =>
      match s.back q with
      | none => none
      | some (s1, r) =>
          match runSession s1 rest with
          | none => none
          | some (s2, out) => some (s2, r :: out)
  | SessOp.sforward q :: rest =>
      match s.forward q with
      | none => none
      | some (s1, _) => runSession s1 rest
  | SessOp.smerge es :: rest => runSession (s.onHistory es) rest

/-- Iterate the forward method a given number of times, collecting the
returned values in call order. -/
def forwardCalls (s : ConsoleHistory) (q : String) :
    Nat → Option (ConsoleHistory × List (Option String))
  | 0 => some (s, [])
  | n + 1 =>
      match s.forward q with
      | none => none
      | some (s1, r) =>
          match forwardCalls s1 q n with
          | none => none
          | some (s2, out) => some (s2, r :: out)

/-- Every list the history field can hold has no adjacent duplicates
(the Log invariant of C4). -/
def LogInv (s : ConsoleHistory) : Prop :=
  ∀ h, s.history = some h → List.Chain' (fun a b => a ≠ b) h

/-- Invariant of an active session with captured placeholder P: the
session flag is on and every entry of the stored filtered view starts
with P (for C6). -/
def SessGood (P : String) (s : ConsoleHistory) : Prop :=
  s.hasSession = true ∧
    ∃ f, s.filtered = some f ∧ ∀ e ∈ f, P = e.take P.length

/-! ## Basic lemmas about single steps -/

lemma vecAt_mem {f : List String} {i : Int} {e : String} (h : vecAt f i = some e) :
    e ∈ f := by
  unfold vecAt at h
  split at h
  · exact absurd h (by simp)
  · exact List.get?_mem h

lemma vecAt_eq_none_of_ge {f : List String} {i : Int} (h : (f.length : Int) ≤ i) :
    vecAt f i = none := by
  unfold vecAt
  split
  · rfl
  · rename_i hneg
    rw [List.get?_eq_none]
    omega

lemma vecAt_neg {f : List String} {i : Int} (h : i < 0) : vecAt f i = none := by
  unfold vecAt
  simp [h]

/-- A back call on a state with an active session: the session-start
branch is skipped, the filtered view is read at the decremented cursor,
and the cursor is clamped to a minimum of 0. -/
lemma back_inSession (s : ConsoleHistory) (f : List String) (q : String)
    (hs : s.hasSession = true) (hf : s.filtered = some f) :
    s.back q = some ({ s with cursor := max 0 (s.cursor - 1) }, vecAt f (s.cursor - 1)) := by
  simp [ConsoleHistory.back, hs, hf]

/-- A forward call on a state with an active session: the filtered view
is read at the incremented cursor and the cursor is clamped to a maximum
of the filtered view's length. -/
lemma forward_inSession (s : ConsoleHistory) (f : List String) (q : String)
    (hs : s.hasSession = true) (hf : s.filtered = some f) :
    s.forward q =
      some ({ s with cursor := min (f.length : Int) (s.cursor + 1) },
            vecAt f (s.cursor + 1)) := by
  simp [ConsoleHistory.forward, hs, hf]

/-- A back call on a live state with no active session starts a session:
it records the placeholder, filters the history by prefix match, places
the cursor at the end of the filtered view, and then performs the usual
decrement, read and clamp. -/
lemma back_startSession (s : ConsoleHistory) (h : List String) (P : String)
    (hs : s.hasSession = false) (hh : s.history = some h) :
    s.back P =
      some ({ s with hasSession := true, placeholder := P,
                     filtered := some (h.filter (fun str => P == str.take P.length)),
                     cursor :=
                       max 0 (((h.filter (fun str => P == str.take P.length)).length : Int) - 1) },
            vecAt (h.filter (fun str => P == str.take P.length))
                  (((h.filter (fun str => P == str.take P.length)).length : Int) - 1)) := by
  simp [ConsoleHistory.back, ConsoleHistory.setFilter, hs, hh]

/-- The push method, characterised on a live state: the item is appended
exactly when it is non-empty and differs from the last entry, and in
either case the session is torn down and the cursor moved to the end of
the (possibly extended) history. -/
lemma push_eq (s : ConsoleHistory) (h : List String) (item : String)
    (hh : s.history = some h) :
    s.push item =
      some (if item ≠ "" ∧ h.getLast? ≠ some item
            then { s with history := some (h ++ [item]),
                          cursor := (((h ++ [item]).length : Nat) : Int),
                          hasSession := false, placeholder := "" }
            else { s with cursor := (h.length : Int),
                          hasSession := false, placeholder := "" }) := by
  by_cases hc : item ≠ "" ∧ h.getLast? ≠ some item <;>
    simp [ConsoleHistory.push, ConsoleHistory.reset, hh, hc]

/-! ## The deduplicating fold of onHistory -/

lemma dedup_foldl (es : List String) : ∀ (acc : List String) (last : String),
    (es.foldl dedupStep (acc, last)).1 = acc ++ dedupSpec last es := by
  induction es with
  | nil => intro acc last; simp [dedupSpec]
  | cons e rest ih =>
      intro acc last
      rw [List.foldl_cons]
      by_cases h : e = last
      · have hstep : dedupStep (acc, last) e = (acc, last) := by simp [dedupStep, h]
        rw [hstep, ih]
        simp only [dedupSpec]
        rw [if_neg (by simp [h])]
      · have hstep : dedupStep (acc, last) e = (acc ++ [e], e) := by simp [dedupStep, h]
        rw [hstep, ih]
        simp only [dedupSpec]
        rw [if_pos h]
        simp

/-- The source's fold equals the spec's recursion started with an empty
last-kept value. -/
lemma dedup_eq_dedupSpec (es : List String) : dedup es = dedupSpec "" es := by
  simpa [dedup] using dedup_foldl es [] ""

lemma dedupSpec_head (last : String) (es : List String) :
    ∀ x, (dedupSpec last es).head? = some x → x ≠ last := by
  induction es generalizing last with
  | nil => intro x hx; simp [dedupSpec] at hx
  | cons e rest ih =>
      intro x hx
      by_cases h : e = last
      · subst h
        rw [dedupSpec, if_neg (by simp)] at hx
        exact ih e x hx
      · rw [dedupSpec, if_pos h] at hx
        simp at hx
        subst hx
        exact h

/-- The deduplicated snapshot never has two adjacent equal entries. -/
lemma dedupSpec_chain (last : String) (es : List String) :
    List.Chain' (fun a b => a ≠ b) (dedupSpec last es) := by
  induction es generalizing last with
  | nil => simp [dedupSpec]
  | cons e rest ih =>
      by_cases h : e = last
      · subst h
        rw [dedupSpec, if_neg (by simp)]
        exact ih e
      · rw [dedupSpec, if_pos h]
        rw [List.chain'_cons']
        refine ⟨?_, ih e⟩
        intro y hy
        exact fun hey => (dedupSpec_head e rest y (by simpa using hy)) hey.symm

/-- Appending an item different from the last entry preserves the
no-adjacent-duplicates invariant. -/
lemma chain_append_one {h : List String} {item : String}
    (hch : List.Chain' (fun a b => a ≠ b) h) (hl : h.getLast? ≠ some item) :
    List.Chain' (fun a b => a ≠ b) (h ++ [item]) := by
  rw [List.chain'_append]
  refine ⟨hch, List.chain'_singleton item, ?_⟩
  intro x hx y hy
  simp only [List.head?_cons, Option.mem_def, Option.some.injEq] at hy
  subst hy
  intro hxy
  subst hxy
  exact hl hx

/-! ## The Log invariant: no adjacent duplicates (for C4) -/

lemma logInv_push {s s1 : ConsoleHistory} {item : String}
    (hinv : LogInv s) (hp : s.push item = some s1) : LogInv s1 := by
  cases hh : s.history with
  | none => simp [ConsoleHistory.push, hh] at hp
  | some h =>
      rw [push_eq s h item hh] at hp
      by_cases hc : item ≠ "" ∧ h.getLast? ≠ some item
      · rw [if_pos hc] at hp
        intro h1 hh1
        have hs1 : s1.history = some (h ++ [item]) := by
          rw [← Option.some.injEq] at hp
          simp at hp
          rw [← hp]
        rw [hs1] at hh1
        cases hh1
        exact chain_append_one (hinv h hh) hc.2
      · rw [if_neg hc] at hp
        intro h1 hh1
        have hs1 : s1.history = s.history := by
          simp at hp
          rw [← hp]
        apply hinv
        rw [← hs1]
        exact hh1

lemma logInv_onHistory (s : ConsoleHistory) (es : List String) : LogInv (s.onHistory es) := by
  intro h hh
  simp only [ConsoleHistory.onHistory] at hh
  cases hh
  rw [dedup_eq_dedupSpec]
  exact dedupSpec_chain "" es

lemma logInv_runHistOps : ∀ (ops : List HistOp) (s s2 : ConsoleHistory),
    LogInv s → runHistOps s ops = some s2 → LogInv s2 := by
  intro ops
  induction ops with
  | nil =>
      intro s s2 hinv hrun
      simp only [runHistOps] at hrun
      cases hrun
      exact hinv
  | cons op rest ih =>
      intro s s2 hinv hrun
      cases op with
      | hpush item =>
          simp only [runHistOps] at hrun
          cases hp : s.push item with
          | none => rw [hp] at hrun; cases hrun
          | some s1 =>
              rw [hp] at hrun
              exact ih s1 s2 (logInv_push hinv hp) hrun
      | hmerge es =>
          simp only [runHistOps] at hrun
          exact ih _ s2 (logInv_onHistory s es) hrun

/-! ## The session invariant: the filtered view matches the captured
placeholder (for C6) -/

/-- An entry of the filter's output has the placeholder as its prefix:
truncated to the placeholder's length it equals the placeholder. -/
lemma filter_matches {h : List String} {P e : String}
    (he : e ∈ h.filter (fun str => P == str.take P.length)) :
    P = e.take P.length := by
  have := (List.mem_filter.mp he).2
  simpa using this

lemma sessGood_back {P q : String} {s s1 : ConsoleHistory} {r : Option String}
    (hg : SessGood P s) (hb : s.back q = some (s1, r)) :
    SessGood P s1 ∧ ∀ e, r = some e → P = e.take P.length := by
  obtain ⟨hs, f, hf, hall⟩ := hg
  rw [back_inSession s f q hs hf] at hb
  simp only [Option.some.injEq, Prod.mk.injEq] at hb
  obtain ⟨hb1, hb2⟩ := hb
  constructor
  · rw [← hb1]
    exact ⟨hs, f, hf, hall⟩
  · intro e he
    rw [← hb2] at he
    exact hall e (vecAt_mem he)

lemma sessGood_forward {P q : String} {s s1 : ConsoleHistory} {r : Option String}
    (hg : SessGood P s) (hb : s.forward q = some (s1, r)) :
    SessGood P s1 ∧ ∀ e, r = some e → P = e.take P.length := by
  obtain ⟨hs, f, hf, hall⟩ := hg
  rw [forward_inSession s f q hs hf] at hb
  simp only [Option.some.injEq, Prod.mk.injEq] at hb
  obtain ⟨hb1, hb2⟩ := hb
  constructor
  · rw [← hb1]
    exact ⟨hs, f, hf, hall⟩
  · intro e he
    rw [← hb2] at he
    exact hall e (vecAt_mem he)

lemma sessGood_onHistory {P : String} {s : ConsoleHistory} (hg : SessGood P s)
    (es : List String) : SessGood P (s.onHistory es) := by
  obtain ⟨hs, f, hf, hall⟩ := hg
  exact ⟨hs, f, hf, hall⟩

/-- Every value a back call returns while the session invariant holds
starts with the session's placeholder, along any sequence of session
operations. -/
lemma runSession_matches {P : String} : ∀ (ops : List SessOp) (s sf : ConsoleHistory)
    (outs : List (Option String)), SessGood P s → runSession s ops = some (sf, outs) →
    ∀ o ∈ outs, ∀ e, o = some e → P = e.take P.length := by
  intro ops
  induction ops with
  | nil =>
      intro s sf outs hg hrun
      simp only [runSession] at hrun
      simp only [Option.some.injEq, Prod.mk.injEq] at hrun
      rw [← hrun.2]
      simp
  | cons op rest ih =>
      intro s sf outs hg hrun
      cases op with
      | sback q =>
          simp only [runSession] at hrun
          cases hb : s.back q with
          | none => rw [hb] at hrun; cases hrun
          | some pr =>
              obtain ⟨s1, r⟩ := pr
              rw [hb] at hrun
              dsimp only at hrun
              cases hrest : runSession s1 rest with
              | none => rw [hrest] at hrun; cases hrun
              | some pr2 =>
                  obtain ⟨s2, out⟩ := pr2
                  rw [hrest] at hrun
                  simp only [Option.some.injEq, Prod.mk.injEq] at hrun
                  obtain ⟨hg1, hr⟩ := sessGood_back hg hb
                  intro o ho
                  rw [← hrun.2] at ho
                  rcases List.mem_cons.mp ho with ho | ho
                  · subst ho
                    exact hr
                  · exact ih s1 s2 out hg1 hrest o ho
      | sforward q =>
          simp only [runSession] at hrun
          cases hb : s.forward q with
          | none => rw [hb] at hrun; cases hrun
          | some pr =>
              obtain ⟨s1, r⟩ := pr
              rw [hb] at hrun
              obtain ⟨hg1, _⟩ := sessGood_forward hg hb
              exact ih s1 sf outs hg1 hrun
      | smerge es =>
          simp only [runSession] at hrun
          exact ih _ sf outs (sessGood_onHistory hg es) hrun

/-! ## Iterated forward calls (for C8) -/

/-- Characterisation of n forward calls in an active session: the calls
never throw, the session flag and filtered view are untouched, for
positive n the cursor ends clamped at the minimum of the view's length
and its start value plus n, and every call made once the start cursor
plus the call index has reached the view's length returns no entry. -/
lemma forwardCalls_spec (f : List String) (q : String) :
    ∀ (n : Nat) (s : ConsoleHistory), s.hasSession = true → s.filtered = some f →
    ∃ s2 out, forwardCalls s q n = some (s2, out) ∧ out.length = n ∧
      s2.hasSession = true ∧ s2.filtered = some f ∧
      (n = 0 → s2.cursor = s.cursor) ∧
      (1 ≤ n → s2.cursor = min (f.length : Int) (s.cursor + n)) ∧
      ∀ i (hi : i < out.length), (f.length : Int) ≤ s.cursor + i →
        out.get ⟨i, hi⟩ = none := by
  intro n
  induction n with
  | zero =>
      intro s hs hf
      exact ⟨s, [], rfl, rfl, hs, hf, fun _ => rfl, fun h => absurd h (by omega),
        fun i hi _ => absurd hi (by simp)⟩
  | succ m ih =>
      intro s hs hf
      have hfw := forward_inSession s f q hs hf
      obtain ⟨s2, out, hcalls, hlen, hs2, hf2, h0, h1, hnone⟩ :=
        ih { s with cursor := min (f.length : Int) (s.cursor + 1) } hs hf
      refine ⟨s2, vecAt f (s.cursor + 1) :: out, ?_, by simp [hlen], hs2, hf2,
        fun h => absurd h (by omega), ?_, ?_⟩
      · simp only [forwardCalls, hfw, hcalls]
      · intro _
        rcases Nat.eq_zero_or_pos m with hm | hm
        · subst hm
          rw [h0 rfl]
          simp
        · rw [h1 hm]
          simp only [ConsoleHistory.cursor]
          omega
      · intro i hi hge
        match i with
        | 0 =>
            simp only [List.get]
            exact vecAt_eq_none_of_ge (by omega)
        | j + 1 =>
            simp only [List.get]
            apply hnone j (by simpa using hi)
            simp only [ConsoleHistory.cursor]
            omega

/-! ## The claims -/

/-- C1 is false on the code: with Log equal to the one-entry list with
entry a, a session started by back returns the oldest matching entry a
and reaches cursor 0, but the next back call returns no entry (the read
happens at the decremented cursor, minus one, before the clamp), not the
oldest entry again. -/
theorem C1_counterexample :
    ((mkConsoleHistory.push "a").bind (fun s1 =>
      (s1.back "").bind (fun r1 =>
        (r1.1.back "").map (fun r2 => (r1.2, r1.1.cursor, r2.2)))) =
      some (some "a", 0, none)) ∧
    (none : Option String) ≠ some "a" := by
  exact ⟨by decide, by decide⟩

/-- C1 (amended): in an active session whose cursor has reached 0, every
further back call returns no entry (the element is read at index minus
one before the clamp), and the cursor stays clamped at 0. -/
theorem C1_amended (s : ConsoleHistory) (f : List String) (q : String)
    (hs : s.hasSession = true) (hf : s.filtered = some f) (hc : s.cursor = 0) :
    s.back q = some ({ s with cursor := 0 }, none) := by
  have h1 : vecAt f ((0 : Int) - 1) = none := vecAt_neg (by norm_num)
  rw [back_inSession s f q hs hf, hc, h1]
  norm_num

/-- Witness for C1 (amended) at a concrete in-session state. -/
theorem C1_witness :
    ConsoleHistory.back ⟨0, true, some ["a"], none, "", some ["a"]⟩ "" =
      some (⟨0, true, some ["a"], none, "", some ["a"]⟩, none) :=
  C1_amended ⟨0, true, some ["a"], none, "", some ["a"]⟩ ["a"] "" rfl rfl rfl

/-- C2 is false on the code: after a fetch for kernel 0 has filled the
Log with entry x, rebinding to the non-null kernel 1 leaves the Log
holding x (no synchronous clear), and a navigation call made before the
new fetch resolves returns x, an entry of the previous binding. -/
theorem C2_counterexample :
    ((((mkConsoleHistory.setKernel (some 0)).1.onHistory ["x"]).setKernel
        (some 1)).1.history = some ["x"]) ∧
    some ["x"] ≠ (some ([] : List String)) ∧
    (((((mkConsoleHistory.setKernel (some 0)).1.onHistory ["x"]).setKernel
        (some 1)).1.back "").map (fun r => r.2) = some (some "x")) := by
  exact ⟨by decide, by decide, by decide⟩

/-- C2 (amended): binding a new non-null provider leaves the Log
unchanged (only binding null clears it synchronously); the fetch is
issued to the new kernel, and until it resolves navigation sees the
previous binding's entries. -/
theorem C2_amended (s : ConsoleHistory) (k : Nat) (hk : s.kernel ≠ some k) :
    (s.setKernel (some k)).1.history = s.history ∧
    (s.setKernel (some k)).2 = some k := by
  have hne : (some k : Option Nat) ≠ s.kernel := fun h => hk h.symm
  simp [ConsoleHistory.setKernel, hne]

/-- Witness for C2 (amended): binding kernel 0 on a fresh object. -/
theorem C2_witness :
    (mkConsoleHistory.setKernel (some 0)).1.history = mkConsoleHistory.history ∧
    (mkConsoleHistory.setKernel (some 0)).2 = some 0 :=
  C2_amended mkConsoleHistory 0 (by decide)

/-- C3: the code has no staleness guard.  A fetch is issued for kernel
0; the provider is rebound to null, clearing the Log; when the stale
fetch then resolves, onHistory applies its snapshot unconditionally and
the Log becomes the snapshot x instead of remaining empty. -/
theorem C3_code_bug :
    ((mkConsoleHistory.setKernel (some 0)).2 = some 0) ∧
    (((mkConsoleHistory.setKernel (some 0)).1.setKernel none).1.history =
      some ([] : List String)) ∧
    ((((mkConsoleHistory.setKernel (some 0)).1.setKernel none).1.onHistory
        ["x"]).history = some ["x"]) ∧
    some ["x"] ≠ (some ([] : List String)) := by
  exact ⟨by decide, by decide, by decide, by decide⟩

/-- C4: along every sequence of pushes and bulk-snapshot merges starting
from the freshly constructed object, the Log never holds two adjacent
equal entries. -/
theorem C4_confirmed (ops : List HistOp) (s : ConsoleHistory) (h : List String)
    (hrun : runHistOps mkConsoleHistory ops = some s) (hh : s.history = some h) :
    List.Chain' (fun a b => a ≠ b) h := by
  have hinv : LogInv mkConsoleHistory := by
    intro h0 hh0
    have : ([] : List String) = h0 := by
      simpa [mkConsoleHistory] using hh0
    rw [← this]
    simp
  exact logInv_runHistOps ops mkConsoleHistory s hinv hrun h hh

/-- Witness for C4 at a concrete operation sequence. -/
theorem C4_witness : List.Chain' (fun a b => a ≠ b) ["x", "y", "z"] :=
  C4_confirmed [HistOp.hpush "a", HistOp.hmerge ["x", "x", "y"], HistOp.hpush "z"]
    ⟨3, false, some ["x", "y", "z"], none, "", none⟩ ["x", "y", "z"] (by decide) rfl

/-- C5: merging a bulk snapshot replaces the Log with the spec's fold
(last kept initialised to empty, an entry appended iff it differs from
last kept) and sets the cursor to the new Log's length; on the raw
entries x, x, y, y, y, z the Log becomes x, y, z. -/
theorem C5_confirmed :
    (∀ (s : ConsoleHistory) (es : List String),
        (s.onHistory es).history = some (dedupSpec "" es) ∧
        (s.onHistory es).cursor = ((dedupSpec "" es).length : Int)) ∧
    dedupSpec "" ["x", "x", "y", "y", "y", "z"] = ["x", "y", "z"] ∧
    (∀ s : ConsoleHistory,
        (s.onHistory ["x", "x", "y", "y", "y", "z"]).history = some ["x", "y", "z"] ∧
        (s.onHistory ["x", "x", "y", "y", "y", "z"]).cursor = 3) := by
  have hd : dedup ["x", "x", "y", "y", "y", "z"] = ["x", "y", "z"] := by decide
  refine ⟨fun s es => ?_, by decide, fun s => ?_⟩
  · constructor
    · simp [ConsoleHistory.onHistory, dedup_eq_dedupSpec]
    · simp [ConsoleHistory.onHistory, dedup_eq_dedupSpec]
  · constructor
    · simp [ConsoleHistory.onHistory, hd]
    · simp [ConsoleHistory.onHistory, hd]

/-- C6: in a session started with placeholder P, the starting back
call's returned entry and the entry of every later back call, across any
interleaving of back and forward calls (whose placeholder arguments are
ignored) and snapshot merges, starts with P: truncated to P's length it
equals P. -/
theorem C6_confirmed (s0 : ConsoleHistory) (h : List String) (P : String)
    (hsess : s0.hasSession = false) (hh : s0.history = some h)
    (s1 : ConsoleHistory) (r1 : Option String) (hback : s0.back P = some (s1, r1))
    (ops : List SessOp) (sf : ConsoleHistory) (outs : List (Option String))
    (hrun : runSession s1 ops = some (sf, outs)) :
    (∀ e, r1 = some e → P = e.take P.length) ∧
    (∀ o ∈ outs, ∀ e, o = some e → P = e.take P.length) := by
  rw [back_startSession s0 h P hsess hh] at hback
  simp only [Option.some.injEq, Prod.mk.injEq] at hback
  obtain ⟨hb1, hb2⟩ := hback
  have hgood : SessGood P s1 := by
    rw [← hb1]
    exact ⟨rfl, h.filter (fun str => P == str.take P.length), rfl,
      fun e he => filter_matches he⟩
  constructor
  · intro e he
    rw [← hb2] at he
    exact filter_matches (vecAt_mem he)
  · exact runSession_matches ops s1 sf outs hgood hrun

/-- Witness for C6 at a concrete session with placeholder a. -/
theorem C6_witness :
    (∀ e, (some "ab" : Option String) = some e → "a" = e.take "a".length) ∧
    (∀ o ∈ ([none] : List (Option String)), ∀ e, o = some e →
      "a" = e.take "a".length) :=
  C6_confirmed ⟨0, false, some ["ab", "b"], none, "", none⟩ ["ab", "b"] "a" rfl rfl
    ⟨0, true, some ["ab", "b"], none, "a", some ["ab"]⟩ (some "ab") (by decide)
    [SessOp.sback "z", SessOp.smerge ["q"]]
    ⟨1, true, some ["q"], none, "a", some ["ab"]⟩ [none] (by decide)

/-- C7: pushing an empty item, or one equal to the Log's last entry,
leaves the Log unchanged and acts exactly as reset: afterwards no
session is active, the placeholder is empty, and the cursor equals the
Log's length. -/
theorem C7_confirmed (s : ConsoleHistory) (h : List String) (item : String)
    (hh : s.history = some h) (hdup : item = "" ∨ h.getLast? = some item) :
    s.push item = s.reset ∧
    s.push item = some { s with cursor := (h.length : Int), hasSession := false,
                                placeholder := "" } := by
  have hc : ¬(item ≠ "" ∧ h.getLast? ≠ some item) := by
    rcases hdup with h1 | h1
    · exact fun hcon => hcon.1 h1
    · exact fun hcon => hcon.2 h1
  have hp := push_eq s h item hh
  rw [if_neg hc] at hp
  have hr : s.reset = some { s with cursor := (h.length : Int), hasSession := false,
                                    placeholder := "" } := by
    simp [ConsoleHistory.reset, hh]
  exact ⟨by rw [hp, hr], hp⟩

/-- Witness for C7: pushing the duplicate of the last entry during an
active session. -/
theorem C7_witness :
    ConsoleHistory.push ⟨0, true, some ["a"], none, "p", some ["a"]⟩ "a" =
      ConsoleHistory.reset ⟨0, true, some ["a"], none, "p", some ["a"]⟩ ∧
    ConsoleHistory.push ⟨0, true, some ["a"], none, "p", some ["a"]⟩ "a" =
      some ⟨1, false, some ["a"], none, "", some ["a"]⟩ :=
  C7_confirmed ⟨0, true, some ["a"], none, "p", some ["a"]⟩ ["a"] "a" rfl (Or.inr rfl)

/-- C8: in an active session with a non-negative cursor, n forward calls
never throw; from the call whose index has reached the filtered view's
length on (in particular from call number length plus one on), every
call returns no entry, and after at least one call the cursor is clamped
to at most the filtered view's length. -/
theorem C8_confirmed (s : ConsoleHistory) (f : List String) (q : String) (n : Nat)
    (hs : s.hasSession = true) (hf : s.filtered = some f) (hc : 0 ≤ s.cursor) :
    ∃ s2 out, forwardCalls s q n = some (s2, out) ∧ out.length = n ∧
      (1 ≤ n → s2.cursor ≤ (f.length : Int)) ∧
      ∀ i (hi : i < out.length), f.length ≤ i → out.get ⟨i, hi⟩ = none := by
  obtain ⟨s2, out, hcalls, hlen, _, _, _, h1, hnone⟩ := forwardCalls_spec f q n s hs hf
  refine ⟨s2, out, hcalls, hlen, ?_, ?_⟩
  · intro hn
    rw [h1 hn]
    omega
  · intro i hi hge
    apply hnone i hi
    omega

/-- Witness for C8: three forward calls in a concrete one-entry session. -/
theorem C8_witness :
    ∃ s2 out,
      forwardCalls ⟨0, true, some ["a"], none, "", some ["a"]⟩ "" 3 = some (s2, out) ∧
      out.length = 3 ∧
      (1 ≤ 3 → s2.cursor ≤ ((["a"] : List String).length : Int)) ∧
      ∀ i (hi : i < out.length), (["a"] : List String).length ≤ i →
        out.get ⟨i, hi⟩ = none :=
  C8_confirmed ⟨0, true, some ["a"], none, "", some ["a"]⟩ ["a"] "" 3 rfl rfl (by decide)

/-- C9 is false on the code: after construction with kernel 5 and
disposal, setting the kernel to null recreates an empty Log, so the
object is no longer disposed; and a late history reply repopulates the
Log with entry x, also resurrecting the object. -/
theorem C9_counterexample :
    (((mkConsoleHistory.setKernel (some 5)).1.dispose).isDisposed = true) ∧
    ((((mkConsoleHistory.setKernel (some 5)).1.dispose).setKernel
        none).1.isDisposed = false) ∧
    ((((mkConsoleHistory.setKernel (some 5)).1.dispose).onHistory ["x"]).history =
      some ["x"]) ∧
    ((((mkConsoleHistory.setKernel (some 5)).1.dispose).onHistory
        ["x"]).isDisposed = false) := by
  exact ⟨by decide, by decide, by decide, by decide⟩

/-- C9 (amended): after disposal, push and reset signal an error, back
and forward signal an error when no session is active, and dispose is a
no-op; but rebinding the provider resurrects state: setting the kernel
to null recreates an empty Log (the object is then no longer disposed),
and a history reply repopulates the Log. -/
theorem C9_amended (s : ConsoleHistory) (q item : String) (es : List String)
    (hd : s.history = none) :
    s.push item = none ∧ s.reset = none ∧ s.dispose = s ∧
    (s.hasSession = false → s.back q = none ∧ s.forward q = none) ∧
    (s.kernel ≠ none → ((s.setKernel none).1.history = some [] ∧
                        (s.setKernel none).1.isDisposed = false)) ∧
    ((s.onHistory es).history = some (dedup es) ∧
      (s.onHistory es).isDisposed = false) := by
  refine ⟨?_, ?_, ?_, ?_, ?_, ?_⟩
  · simp [ConsoleHistory.push, hd]
  · simp [ConsoleHistory.reset, hd]
  · simp [ConsoleHistory.dispose, ConsoleHistory.isDisposed, hd]
  · intro hsess
    constructor
    · simp [ConsoleHistory.back, ConsoleHistory.setFilter, hsess, hd]
    · simp [ConsoleHistory.forward, ConsoleHistory.setFilter, hsess, hd]
  · intro hk
    have hne : (none : Option Nat) ≠ s.kernel := fun h => hk h.symm
    constructor
    · simp [ConsoleHistory.setKernel, hne]
    · simp [ConsoleHistory.setKernel, ConsoleHistory.isDisposed, hne]
  · exact ⟨rfl, rfl⟩

/-- Witness for C9 (amended) at a concrete disposed state. -/
theorem C9_witness :
    ConsoleHistory.push ⟨0, false, none, some 3, "", none⟩ "a" = none ∧
    ConsoleHistory.reset ⟨0, false, none, some 3, "", none⟩ = none ∧
    ConsoleHistory.dispose ⟨0, false, none, some 3, "", none⟩ =
      ⟨0, false, none, some 3, "", none⟩ ∧
    ((⟨0, false, none, some 3, "", none⟩ : ConsoleHistory).hasSession = false →
      ConsoleHistory.back ⟨0, false, none, some 3, "", none⟩ "" = none ∧
      ConsoleHistory.forward ⟨0, false, none, some 3, "", none⟩ "" = none) ∧
    ((⟨0, false, none, some 3, "", none⟩ : ConsoleHistory).kernel ≠ none →
      ((ConsoleHistory.setKernel ⟨0, false, none, some 3, "", none⟩ none).1.history =
        some [] ∧
       (ConsoleHistory.setKernel ⟨0, false, none, some 3, "", none⟩
          none).1.isDisposed = false)) ∧
    ((ConsoleHistory.onHistory ⟨0, false, none, some 3, "", none⟩ ["x"]).history =
      some (dedup ["x"]) ∧
     (ConsoleHistory.onHistory ⟨0, false, none, some 3, "", none⟩
        ["x"]).isDisposed = false) :=
  C9_amended ⟨0, false, none, some 3, "", none⟩ "" "a" ["x"] rfl

/-- C10: a snapshot merge during an active session modifies only the
Log and the cursor: the session flag, the captured placeholder, the
stored filtered view and the kernel binding are unchanged, the Log
becomes the deduplicated snapshot, the cursor its length; concretely,
with an active session over an empty filtered view a two-entry snapshot
leaves the cursor at 2, exceeding the filtered view's length 0. -/
theorem C10_confirmed :
    (∀ (s : ConsoleHistory) (es : List String),
        (s.onHistory es).hasSession = s.hasSession ∧
        (s.onHistory es).placeholder = s.placeholder ∧
        (s.onHistory es).filtered = s.filtered ∧
        (s.onHistory es).kernel = s.kernel ∧
        (s.onHistory es).history = some (dedup es) ∧
        (s.onHistory es).cursor = ((dedup es).length : Int)) ∧
    ((ConsoleHistory.onHistory ⟨0, true, some [], none, "q", some []⟩
        ["x", "y"]).cursor = 2 ∧
      ((2 : Int) > ((([] : List String).length : Int)))) := by
  exact ⟨fun s es => ⟨rfl, rfl, rfl, rfl, rfl, rfl⟩, by decide, by decide⟩

